import Mathlib

/-!
Shallow embedding, in Lean 4, of the pod-cloning CLI `kmime` (Go).

Source files embedded here:
* `kube.go` (`src/unnamed/part_001`): `generateNewPodName`, `clonePod`,
  `deletePod`, `waitForPodRunning`, and the attach error surface;
* `parsing.go`: `parseLabels`, `parseEnvFile`, and the Bubble Tea session
  model's attach-error classification (`Update`, case `attachMsg`);
* `main.go`: the `rootCmd.Run` session pipeline (argument handling, stage
  sequencing, `defer`red cleanup, `log.Fatalf` exits).

Go strings are modelled as Lean `String`s (the inputs relevant to the
claims are ASCII, where Go's byte length and Lean's character length
agree).  Go `map[string]string` / `map[string]v1.EnvVar` values are
modelled as association lists with an overwrite-on-insert operation; a Go
map's iteration order is unspecified, so every theorem about a map reads
it only through a lookup function, which is order-independent on the
unique-keyed lists the inserts produce.

Go control-flow facts used by the embedding (both documented semantics of
the Go standard library): `log.Fatalf` prints and then calls `os.Exit(1)`,
and `os.Exit` terminates the process immediately *without* running
deferred functions.
-/

set_option autoImplicit false

namespace Kmime

/-! ## Name generation (`generateNewPodName`, kube.go) -/

/-- `strings.Trim(s, "-")` at the character-list level: drop `'-'` from
both ends. -/
def trimDashes (l : List Char) : List Char :=
  (l.dropWhile (fun c => c == '-')).rdropWhile (fun c => c == '-')

/-- The tail of `generateNewPodName`: `if len(fullName) > 63 { fullName =
fullName[:63] }; return strings.Trim(fullName, "-")`. -/
def truncateAndTrim (fullName : String) : String :=
  String.mk (trimDashes
    (if fullName.length > 63 then fullName.data.take 63 else fullName.data))

/-- `generateNewPodName` from kube.go.  The Go function reads
`time.Now().UnixNano() % 10000` for its uniqueness token; the embedding
takes the nanosecond reading as the explicit argument `token`.  Go's
`prefix` argument is named `pre` (`prefix` is a Lean keyword), `suffix` is
`suf`. -/
def generateNewPodName (originalName pre suf user : String) (token : Nat) : String :=
  let nameParts : List String :=
    (if pre ≠ "" then [pre] else []) ++ [originalName] ++
      (if suf ≠ "" then [suf] else []) ++ (if user ≠ "" then [user] else []) ++
      [toString (token % 10000)]
  truncateAndTrim (String.intercalate "-" nameParts)

theorem head?_dropWhile_not {α : Type} (p : α → Bool) (l : List α) {a : α}
    (h : (l.dropWhile p).head? = some a) : p a = false := by
  induction l with
  | nil => simp [List.dropWhile] at h
  | cons x xs ih =>
    rw [List.dropWhile_cons] at h
    by_cases hx : p x = true
    · exact ih (by simpa [hx] using h)
    · simp only [hx, if_false] at h
      cases h
      simpa using hx

theorem head?_of_prefix {α : Type} {l₁ l₂ : List α} (h : l₁ <+: l₂) (hne : l₁ ≠ []) :
    l₁.head? = l₂.head? := by
  obtain ⟨t, rfl⟩ := h
  cases l₁ with
  | nil => exact absurd rfl hne
  | cons a l => rfl

theorem trimDashes_length_le (l : List Char) : (trimDashes l).length ≤ l.length := by
  have h₁ : (trimDashes l).length ≤ (l.dropWhile (fun c => c == '-')).length :=
    (List.rdropWhile_prefix _ _).length_le
  have h₂ : (l.dropWhile (fun c => c == '-')).length ≤ l.length :=
    (List.dropWhile_suffix _).length_le
  omega

theorem trimDashes_head?_ne {l : List Char} {c : Char}
    (h : (trimDashes l).head? = some c) : c ≠ '-' := by
  have hne : trimDashes l ≠ [] := by
    intro hnil; rw [hnil] at h; simp at h
  have hpre : (trimDashes l).head? = (l.dropWhile (fun c => c == '-')).head? :=
    head?_of_prefix (List.rdropWhile_prefix _ _) hne
  have := head?_dropWhile_not (fun c => c == '-') l (hpre ▸ h)
  simpa using this

theorem trimDashes_getLast?_ne {l : List Char} {c : Char}
    (h : (trimDashes l).getLast? = some c) : c ≠ '-' := by
  have hne : trimDashes l ≠ [] := by
    intro hnil; rw [hnil] at h; simp at h
  unfold trimDashes at h hne
  rw [List.rdropWhile, List.getLast?_reverse] at h
  have := head?_dropWhile_not (fun c => c == '-')
    (l.dropWhile (fun c => c == '-')).reverse h
  simpa using this

theorem truncateAndTrim_shape (fullName : String) :
    (truncateAndTrim fullName).length ≤ 63 ∧
      (∀ c, (truncateAndTrim fullName).data.head? = some c → c ≠ '-') ∧
      (∀ c, (truncateAndTrim fullName).data.getLast? = some c → c ≠ '-') := by
  unfold truncateAndTrim
  by_cases h63 : fullName.length > 63
  · simp only [h63, if_true]
    refine ⟨?_, fun c hc => trimDashes_head?_ne hc, fun c hc => trimDashes_getLast?_ne hc⟩
    have h₁ := trimDashes_length_le (fullName.data.take 63)
    have h₂ : (fullName.data.take 63).length ≤ 63 := by
      simp
    show (trimDashes (fullName.data.take 63)).length ≤ 63
    omega
  · simp only [h63, if_false]
    refine ⟨?_, fun c hc => trimDashes_head?_ne hc, fun c hc => trimDashes_getLast?_ne hc⟩
    have h₁ := trimDashes_length_le fullName.data
    have h₂ : fullName.data.length ≤ 63 := by
      simp only [String.length] at h63
      omega
    show (trimDashes fullName.data).length ≤ 63
    omega

/-- C5: the generated pod name is at most 63 characters long, and neither
starts nor ends with the separator `'-'` — truncation to 63 characters
happens before the final `strings.Trim`, so it can never leave a leading
or trailing separator in the result. -/
theorem generateNewPodName_shape (originalName pre suf user : String) (token : Nat) :
    (generateNewPodName originalName pre suf user token).length ≤ 63 ∧
      (∀ c, (generateNewPodName originalName pre suf user token).data.head? = some c →
        c ≠ '-') ∧
      (∀ c, (generateNewPodName originalName pre suf user token).data.getLast? = some c →
        c ≠ '-') :=
  truncateAndTrim_shape _

/-! ## Data model: pods, containers, labels, environment variables

The fields of `k8s.io/api/core/v1` types that `clonePod` reads or writes. -/

structure EnvVar where
  name : String
  value : String
deriving DecidableEq

structure Container where
  command : List String
  args : List String
  tty : Bool
  stdin : Bool
  env : List EnvVar
deriving DecidableEq

structure PodSpec where
  containers : List Container
  restartPolicy : String
  nodeName : String
  serviceAccountName : String
deriving DecidableEq

structure ObjectMeta where
  name : String
  namespaceName : String
  labels : List (String × String)
  annotations : List (String × String)
deriving DecidableEq

structure Pod where
  metadata : ObjectMeta
  spec : PodSpec
deriving DecidableEq

/-! ## Go maps as association lists

A Go `map` is an unordered collection of unique-keyed entries.  We model
it as an association list; `insertBy` is `m[key x] = x` (the entry with
that key, if any, is replaced), and `lookupBy` reads the map, letting the
most recent insertion win, so its result does not depend on the
(unspecified) iteration order the Go runtime would expose. -/

def lookupBy {α : Type} (key : α → String) : List α → String → Option α
  | [], _ => none
  | x :: rest, k =>
    match lookupBy key rest k with
    | some v => some v
    | none => if key x == k then some x else none

def insertBy {α : Type} (key : α → String) (m : List α) (x : α) : List α :=
  m.filter (fun y => key y != key x) ++ [x]

def insertAllBy {α : Type} (key : α → String) (m : List α) (l : List α) : List α :=
  l.foldl (insertBy key) m

theorem lookupBy_nil {α : Type} (key : α → String) (k : String) :
    lookupBy key ([] : List α) k = none := rfl

theorem lookupBy_cons {α : Type} (key : α → String) (x : α) (rest : List α) (k : String) :
    lookupBy key (x :: rest) k =
      match lookupBy key rest k with
      | some v => some v
      | none => if key x == k then some x else none := rfl

theorem filterNe_cons {α : Type} (key : α → String) (y : α) (rest : List α) (kx : String) :
    (y :: rest).filter (fun z => key z != kx) =
      if key y = kx then rest.filter (fun z => key z != kx)
      else y :: rest.filter (fun z => key z != kx) := by
  by_cases h : key y = kx <;> simp [List.filter_cons, h]

theorem lookupBy_append {α : Type} (key : α → String) (xs ys : List α) (k : String) :
    lookupBy key (xs ++ ys) k =
      match lookupBy key ys k with
      | some v => some v
      | none => lookupBy key xs k := by
  induction xs with
  | nil =>
    rw [List.nil_append]
    cases lookupBy key ys k <;> rfl
  | cons x xs ih =>
    rw [List.cons_append, lookupBy_cons key x (xs ++ ys) k, ih, lookupBy_cons key x xs k]
    cases lookupBy key ys k <;> cases lookupBy key xs k <;> rfl

theorem lookupBy_filter_self {α : Type} (key : α → String) (m : List α) (kx : String) :
    lookupBy key (m.filter (fun y => key y != kx)) kx = none := by
  induction m with
  | nil => rfl
  | cons y rest ih =>
    rw [filterNe_cons]
    by_cases hy : key y = kx
    · rw [if_pos hy]; exact ih
    · rw [if_neg hy, lookupBy_cons, ih]
      simp [hy]

theorem lookupBy_filter_other {α : Type} (key : α → String) (m : List α) {k kx : String}
    (h : k ≠ kx) :
    lookupBy key (m.filter (fun y => key y != kx)) k = lookupBy key m k := by
  induction m with
  | nil => rfl
  | cons y rest ih =>
    rw [filterNe_cons]
    by_cases hy : key y = kx
    · have hyk : (key y == k) = false := by
        rw [hy]
        exact beq_eq_false_iff_ne.mpr (Ne.symm h)
      rw [if_pos hy, ih, lookupBy_cons, hyk]
      cases lookupBy key rest k <;> rfl
    · rw [if_neg hy, lookupBy_cons, lookupBy_cons, ih]

theorem lookupBy_insertBy {α : Type} (key : α → String) (m : List α) (x : α) (k : String) :
    lookupBy key (insertBy key m x) k =
      if key x == k then some x else lookupBy key m k := by
  unfold insertBy
  rw [lookupBy_append]
  by_cases hx : key x = k
  · have h1 : lookupBy key [x] k = some x := by
      rw [lookupBy_cons, lookupBy_nil]
      simp [hx]
    rw [h1]
    simp [hx]
  · have h1 : lookupBy key [x] k = none := by
      rw [lookupBy_cons, lookupBy_nil]
      simp [hx]
    rw [h1, lookupBy_filter_other key m (fun e => hx e.symm)]
    have h2 : (key x == k) = false := beq_eq_false_iff_ne.mpr hx
    rw [h2]
    cases lookupBy key m k <;> rfl

theorem lookupBy_insertAllBy {α : Type} (key : α → String) (l : List α) :
    ∀ (m : List α) (k : String),
      lookupBy key (insertAllBy key m l) k =
        match lookupBy key l k with
        | some v => some v
        | none => lookupBy key m k := by
  induction l with
  | nil => intro m k; rfl
  | cons x l ih =>
    intro m k
    show lookupBy key (insertAllBy key (insertBy key m x) l) k = _
    rw [ih, lookupBy_cons key x l k, lookupBy_insertBy]
    cases hl : lookupBy key l k
    · by_cases hx : key x = k <;> simp [hx]
    · rfl

/-- Merging two Go maps by inserting all of `l1` and then all of `l2`
into an empty map (the pattern `clonePod` uses for labels and for
environment variables): the second map's entries win on key collision. -/
theorem lookupBy_merge {α : Type} (key : α → String) (l1 l2 : List α) (k : String) :
    lookupBy key (insertAllBy key (insertAllBy key [] l1) l2) k =
      match lookupBy key l2 k with
      | some v => some v
      | none => lookupBy key l1 k := by
  rw [lookupBy_insertAllBy, lookupBy_insertAllBy]
  cases lookupBy key l2 k <;> cases lookupBy key l1 k <;> rfl

/-- The value a Go `map[string]string` association-list model gives to a
key. -/
def labelLookup (m : List (String × String)) (k : String) : Option String :=
  (lookupBy Prod.fst m k).map Prod.snd

/-- The value the environment, viewed as a map keyed by variable name,
gives to a name. -/
def envLookup (m : List EnvVar) (n : String) : Option String :=
  (lookupBy EnvVar.name m n).map EnvVar.value

/-! ## `clonePod` (kube.go) -/

/-- `clonePod` from kube.go.  As with `generateNewPodName`, the
time-derived uniqueness token is the explicit argument `token`; the Go
parameters `prefix`/`suffix` are named `pre`/`suf`. -/
def clonePod (originalPod : Pod) (user : String) (command : List String)
    (pre suf : String) (newLabels : List (String × String)) (newEnvs : List EnvVar)
    (token : Nat) : Pod :=
  let podName := generateNewPodName originalPod.metadata.name pre suf user token
  let finalLabels :=
    insertAllBy Prod.fst (insertAllBy Prod.fst [] originalPod.metadata.labels) newLabels
  let spec0 : PodSpec := { originalPod.spec with restartPolicy := "Never" }
  let spec1 : PodSpec :=
    match spec0.containers with
    | [] => spec0
    | c :: rest =>
      let c1 : Container :=
        { c with command := command, args := [], tty := true, stdin := true }
      let envMap := insertAllBy EnvVar.name (insertAllBy EnvVar.name [] c1.env) newEnvs
      { spec0 with containers := { c1 with env := envMap } :: rest }
  { metadata :=
      { name := podName
        namespaceName := originalPod.metadata.namespaceName
        labels := finalLabels
        annotations := originalPod.metadata.annotations }
    spec :=
      { spec1 with
        nodeName := ""
        serviceAccountName := originalPod.spec.serviceAccountName } }

/-- C4: for a source pod with at least one container, the clone's first
container runs the caller-supplied command with its argument list
cleared and TTY/stdin forced on; the restart policy is `"Never"`, node
binding is cleared, and the service account name is preserved. -/
theorem clonePod_first_container (originalPod : Pod) (user : String)
    (command : List String) (pre suf : String) (newLabels : List (String × String))
    (newEnvs : List EnvVar) (token : Nat)
    (h : originalPod.spec.containers ≠ []) :
    ((clonePod originalPod user command pre suf newLabels newEnvs token).spec.containers.head?.map
        Container.command) = some command ∧
    ((clonePod originalPod user command pre suf newLabels newEnvs token).spec.containers.head?.map
        Container.args) = some [] ∧
    ((clonePod originalPod user command pre suf newLabels newEnvs token).spec.containers.head?.map
        Container.tty) = some true ∧
    ((clonePod originalPod user command pre suf newLabels newEnvs token).spec.containers.head?.map
        Container.stdin) = some true ∧
    (clonePod originalPod user command pre suf newLabels newEnvs token).spec.restartPolicy =
      "Never" ∧
    (clonePod originalPod user command pre suf newLabels newEnvs token).spec.nodeName = "" ∧
    (clonePod originalPod user command pre suf newLabels newEnvs token).spec.serviceAccountName =
      originalPod.spec.serviceAccountName := by
  cases hc : originalPod.spec.containers with
  | nil => exact absurd hc h
  | cons c rest => simp [clonePod, hc]

/-- C6: the clone's label map is the union of the source pod's labels and
the caller-supplied labels, with the caller-supplied entry winning on key
collision; in particular a key is present in the clone's labels exactly
when it is present in one of the two inputs. -/
theorem clonePod_labels (originalPod : Pod) (user : String) (command : List String)
    (pre suf : String) (newLabels : List (String × String)) (newEnvs : List EnvVar)
    (token : Nat) (k : String) :
    labelLookup (clonePod originalPod user command pre suf newLabels newEnvs token).metadata.labels
        k =
      (match labelLookup newLabels k with
       | some v => some v
       | none => labelLookup originalPod.metadata.labels k) ∧
    ((labelLookup
        (clonePod originalPod user command pre suf newLabels newEnvs token).metadata.labels
        k).isSome ↔
      ((labelLookup originalPod.metadata.labels k).isSome ∨
        (labelLookup newLabels k).isSome)) := by
  have hmerge : (clonePod originalPod user command pre suf newLabels newEnvs
      token).metadata.labels =
      insertAllBy Prod.fst (insertAllBy Prod.fst [] originalPod.metadata.labels) newLabels := by
    cases hc : originalPod.spec.containers <;> simp [clonePod, hc]
  constructor
  · rw [hmerge]
    unfold labelLookup
    rw [lookupBy_merge]
    cases lookupBy Prod.fst newLabels k <;> rfl
  · rw [hmerge]
    unfold labelLookup
    rw [lookupBy_merge]
    cases lookupBy Prod.fst newLabels k <;>
      cases lookupBy Prod.fst originalPod.metadata.labels k <;> simp

/-- C7: for a source pod with at least one container, the clone's first
container's environment, viewed as a map keyed by variable name, is the
union of the source container's variables and the caller-supplied
variables, the caller-supplied entry winning on name collision (the list
order itself is not constrained — only the lookup view is). -/
theorem clonePod_env (originalPod : Pod) (user : String) (command : List String)
    (pre suf : String) (newLabels : List (String × String)) (newEnvs : List EnvVar)
    (token : Nat) (c : Container) (rest : List Container)
    (hc : originalPod.spec.containers = c :: rest) (n : String) :
    ((clonePod originalPod user command pre suf newLabels newEnvs
          token).spec.containers.head?.map (fun (e : Container) => envLookup e.env n)) =
      some (match envLookup newEnvs n with
            | some v => some v
            | none => envLookup c.env n) := by
  have hhead : (clonePod originalPod user command pre suf newLabels newEnvs
      token).spec.containers.head? =
      some { command := command, args := [], tty := true, stdin := true,
             env := insertAllBy EnvVar.name (insertAllBy EnvVar.name [] c.env) newEnvs } := by
    simp [clonePod, hc]
  rw [hhead]
  simp only [Option.map_some', Option.some.injEq]
  unfold envLookup
  rw [lookupBy_merge]
  cases lookupBy EnvVar.name newEnvs n <;> rfl

/-! ## `deletePod` (kube.go) -/

/-- The outcomes the cluster's delete call can report back to
`deletePod`: success, a "not found" error (`k8serrors.IsNotFound`), or
any other error. -/
inductive DeleteOutcome where
  | ok
  | notFound
  | otherError (msg : String)
deriving DecidableEq

/-- `deletePod` from kube.go as a function of the cluster's reported
outcome; `none` is Go's `nil` error.  An error is returned only when
`err != nil && !k8serrors.IsNotFound(err)`. -/
def deletePod (outcome : DeleteOutcome) : Option String :=
  match outcome with
  | .ok => none
  | .notFound => none
  | .otherError msg => some ("failed to delete pod: " ++ msg)

/-- C8: deleting an already-absent pod ("not found") returns success, and
an error is returned only for other deletion failures. -/
theorem deletePod_idempotent :
    deletePod .notFound = none ∧ deletePod .ok = none ∧
      ∀ msg, (deletePod (.otherError msg)).isSome = true :=
  ⟨rfl, rfl, fun _ => rfl⟩

/-! ## `waitForPodRunning` (kube.go)

The watch stream is modelled as a list of events, each tagged with the
delay after the previous receive at which it becomes available on
`watcher.ResultChan()`.  Each iteration of the Go `for { select { ... } }`
loop waits on the channel *and on a fresh `time.After(timeout)` timer*;
the event is received when its delay is strictly below `timeout`,
otherwise the timer fires first. -/

inductive Phase where
  | pending | running | succeeded | failed | unknown
deriving DecidableEq

inductive WatchEvent where
  /-- `event.Type == watch.Error`. -/
  | errorEvent
  /-- `event.Object` is not a `*v1.Pod`. -/
  | nonPodObject
  /-- A pod change notification carrying `pod.Status.Phase`. -/
  | podEvent (phase : Phase)
deriving DecidableEq

structure TimedEvent where
  delay : Nat
  ev : WatchEvent
deriving DecidableEq

inductive WaitResult where
  | ok | watchError | badObject | podFailed | timedOut
deriving DecidableEq

/-- The loop of `waitForPodRunning`, returning the resolution together
with the total time elapsed since the watch started.  `running` and
`succeeded` resolve successfully, `failed` resolves as a pod failure,
watch errors and non-pod objects resolve as fatal failures, and any
other phase loops — with the `select` re-arming `time.After(timeout)`
from zero. -/
def waitLoop (timeout : Nat) : List TimedEvent → Nat → WaitResult × Nat
  | [], elapsed => (.timedOut, elapsed + timeout)
  | e :: rest, elapsed =>
    if timeout ≤ e.delay then (.timedOut, elapsed + timeout)
    else
      match e.ev with
      | .errorEvent => (.watchError, elapsed + e.delay)
      | .nonPodObject => (.badObject, elapsed + e.delay)
      | .podEvent .running => (.ok, elapsed + e.delay)
      | .podEvent .succeeded => (.ok, elapsed + e.delay)
      | .podEvent .failed => (.podFailed, elapsed + e.delay)
      | .podEvent _ => waitLoop timeout rest (elapsed + e.delay)

/-- `waitForPodRunning` from kube.go, over a simulated event stream. -/
def waitForPodRunning (timeout : Nat) (events : List TimedEvent) : WaitResult × Nat :=
  waitLoop timeout events 0

theorem waitLoop_quiet (timeout : Nat) (events : List TimedEvent)
    (hq : ∀ e ∈ events,
      (e.ev = .podEvent .pending ∨ e.ev = .podEvent .unknown) ∧ e.delay < timeout) :
    ∀ elapsed, waitLoop timeout events elapsed =
      (.timedOut, elapsed + (events.map TimedEvent.delay).sum + timeout) := by
  induction events with
  | nil => intro elapsed; simp [waitLoop]
  | cons e rest ih =>
    intro elapsed
    obtain ⟨hev, hd⟩ := hq e (List.mem_cons_self e rest)
    have hrest : ∀ x ∈ rest,
        (x.ev = .podEvent .pending ∨ x.ev = .podEvent .unknown) ∧ x.delay < timeout :=
      fun x hx => hq x (List.mem_cons_of_mem e hx)
    have hnot : ¬ timeout ≤ e.delay := Nat.not_le.mpr hd
    rcases hev with hev | hev <;>
      · rw [waitLoop, if_neg hnot, hev, ih hrest (elapsed + e.delay)]
        simp only [List.map_cons, List.sum_cons]
        congr 1
        omega

theorem waitLoop_bound (timeout : Nat) (events : List TimedEvent) :
    ∀ elapsed, (waitLoop timeout events elapsed).2 ≤
      elapsed + events.length * timeout + timeout := by
  induction events with
  | nil => intro elapsed; simp [waitLoop]
  | cons e rest ih =>
    intro elapsed
    rw [waitLoop]
    by_cases h : timeout ≤ e.delay
    · rw [if_pos h]
      simp only [List.length_cons, Nat.succ_mul]
      omega
    · rw [if_neg h]
      have hd : e.delay < timeout := Nat.not_le.mp h
      have hrec := ih (elapsed + e.delay)
      cases hev : e.ev with
      | errorEvent => simp only [List.length_cons, Nat.succ_mul]; omega
      | nonPodObject => simp only [List.length_cons, Nat.succ_mul]; omega
      | podEvent ph =>
        cases ph <;> simp only [List.length_cons, Nat.succ_mul] <;> omega

/-- C3 counterexample: with `timeout = 120`, a stream of two non-qualifying
(`pending`) notifications arriving 100 time units apart — so that no
qualifying event ever arrives, in particular none within the first 120
units — resolves as a timeout only at total time 320 > 120: the timeout
does not bound the total wait.  Moreover, appending a qualifying `failed`
event at total time 300 (also far beyond 120) makes the watcher resolve
with the pod failure instead of a timeout error. -/
theorem waitForPodRunning_timeout_not_total :
    waitForPodRunning 120 [⟨100, .podEvent .pending⟩, ⟨100, .podEvent .pending⟩] =
        (.timedOut, 320) ∧
      120 < 320 ∧
      waitForPodRunning 120
          [⟨100, .podEvent .pending⟩, ⟨100, .podEvent .pending⟩,
            ⟨100, .podEvent .failed⟩] =
        (.podFailed, 300) := by
  refine ⟨by decide, by decide, by decide⟩

/-- C3 as amended: the caller-supplied timeout is re-armed on every
received event, so it bounds the wait *between consecutive events*, not
the total wait.  A stream of non-qualifying pod notifications each
arriving strictly within `timeout` of the previous receive resolves with
a timeout error only after the whole stream is drained, at total time
(sum of the inter-event delays) + `timeout`; in every run the single
resolution happens within (number of events + 1) × `timeout`. -/
theorem waitForPodRunning_rearmed (timeout : Nat) (events : List TimedEvent) :
    ((∀ e ∈ events,
        (e.ev = .podEvent .pending ∨ e.ev = .podEvent .unknown) ∧ e.delay < timeout) →
      waitForPodRunning timeout events =
        (.timedOut, (events.map TimedEvent.delay).sum + timeout)) ∧
    (waitForPodRunning timeout events).2 ≤ (events.length + 1) * timeout := by
  constructor
  · intro hq
    have := waitLoop_quiet timeout events hq 0
    simpa [waitForPodRunning] using this
  · have := waitLoop_bound timeout events 0
    rw [Nat.succ_mul]
    simpa [waitForPodRunning] using this

/-- Witness for `waitForPodRunning_rearmed` at a concrete stream: one
`pending` event 60 units in, timeout 120. -/
theorem waitForPodRunning_rearmed_witness :
    waitForPodRunning 120 [⟨60, .podEvent .pending⟩] = (.timedOut, 180) ∧
      (waitForPodRunning 120 [⟨60, .podEvent .pending⟩]).2 ≤ 240 := by
  have h := waitForPodRunning_rearmed 120 [⟨60, .podEvent .pending⟩]
  have hq : ∀ e ∈ [(⟨60, .podEvent .pending⟩ : TimedEvent)],
      (e.ev = .podEvent .pending ∨ e.ev = .podEvent .unknown) ∧ e.delay < 120 := by
    intro e he
    rw [List.mem_singleton] at he
    subst he
    exact ⟨Or.inl rfl, by decide⟩
  exact ⟨(h.1 hq).trans (by decide), le_trans h.2 (by decide)⟩

/-! ## `parseEnvFile` (parsing.go) -/

/-- `strings.TrimSpace`: drop whitespace from both ends.  (Go trims the
Unicode space class; `Char.isWhitespace` covers the characters that occur
in line-oriented env files: space, tab, CR, LF.) -/
def trimSpace (s : String) : String :=
  String.mk ((s.data.dropWhile Char.isWhitespace).rdropWhile Char.isWhitespace)

/-- `strings.SplitN(line, "=", 2)`, restricted to the shape `parseEnvFile`
consumes: the text before the first `'='` and the text after it, or
`none` when the line contains no `'='` (in which case Go returns the
one-element slice `[line]`). -/
def splitOnFirstEq : List Char → Option (List Char × List Char)
  | [] => none
  | c :: rest =>
    if c = '=' then some ([], rest)
    else
      match splitOnFirstEq rest with
      | none => none
      | some kv => some (c :: kv.1, kv.2)

/-- One iteration of the scanner loop in `parseEnvFile`: trim the line;
skip it when blank or starting with `'#'`; with no `'='` the
`len(parts) != 2` branch is taken, whose inner `strings.HasSuffix(line,
"=")` test can only see lines without `'='` (so it never fires, but it is
embedded as written); otherwise append the entry `(parts[0], parts[1])`. -/
def envFileStep (envs : List EnvVar) (rawLine : String) : List EnvVar :=
  let line := trimSpace rawLine
  if line.data = [] ∨ line.data.head? = some '#' then envs
  else
    match splitOnFirstEq line.data with
    | none => if line.data.getLast? = some '=' then envs ++ [⟨line, ""⟩] else envs
    | some kv => envs ++ [⟨String.mk kv.1, String.mk kv.2⟩]

/-- `parseEnvFile` from parsing.go as a function of the file's text
content (opening and reading the file is I/O outside the embedding;
`bufio.Scanner` yields the newline-separated lines, and the trailing
empty token produced by a final newline is skipped as a blank line). -/
def parseEnvFile (content : String) : List EnvVar :=
  ((content.data.splitOn '\n').map String.mk).foldl envFileStep []

theorem dropWhile_eq_self_of_forall {α : Type} (p : α → Bool) (l : List α)
    (h : ∀ c ∈ l, p c = false) : l.dropWhile p = l := by
  cases l with
  | nil => rfl
  | cons a rest =>
    rw [List.dropWhile_cons, h a (List.mem_cons_self a rest)]
    simp

theorem rdropWhile_eq_self_of_forall {α : Type} (p : α → Bool) (l : List α)
    (h : ∀ c ∈ l, p c = false) : l.rdropWhile p = l := by
  unfold List.rdropWhile
  rw [dropWhile_eq_self_of_forall p l.reverse (fun c hc => h c (List.mem_reverse.mp hc))]
  exact List.reverse_reverse l

theorem trimSpace_eq_self {s : String} (h : ∀ c ∈ s.data, c.isWhitespace = false) :
    trimSpace s = s := by
  unfold trimSpace
  rw [dropWhile_eq_self_of_forall _ _ h,
    rdropWhile_eq_self_of_forall _ _ h]

theorem trimSpace_data_sublist (s : String) :
    List.Sublist (trimSpace s).data s.data := by
  unfold trimSpace
  have h1 : List.Sublist ((s.data.dropWhile Char.isWhitespace).rdropWhile Char.isWhitespace)
      (s.data.dropWhile Char.isWhitespace) :=
    (List.rdropWhile_prefix _ _).sublist
  have h2 : List.Sublist (s.data.dropWhile Char.isWhitespace) s.data :=
    (List.dropWhile_suffix _).sublist
  exact h1.trans h2

theorem splitOnFirstEq_eq_none {l : List Char} (h : '=' ∉ l) :
    splitOnFirstEq l = none := by
  induction l with
  | nil => rfl
  | cons c rest ih =>
    have hc : ¬ c = '=' := fun e => h (e ▸ List.mem_cons_self c rest)
    rw [splitOnFirstEq, if_neg hc, ih (fun hm => h (List.mem_cons_of_mem c hm))]

theorem splitOnFirstEq_key {key : List Char} (h : '=' ∉ key) (tail : List Char) :
    splitOnFirstEq (key ++ '=' :: tail) = some (key, tail) := by
  induction key with
  | nil => simp [splitOnFirstEq]
  | cons c rest ih =>
    have hc : ¬ c = '=' := fun e => h (e ▸ List.mem_cons_self c rest)
    rw [List.cons_append, splitOnFirstEq, if_neg hc,
      ih (fun hm => h (List.mem_cons_of_mem c hm))]

theorem getLast?_mem {α : Type} {l : List α} {a : α} (h : l.getLast? = some a) :
    a ∈ l := by
  induction l with
  | nil => simp [List.getLast?] at h
  | cons x rest ih =>
    cases rest with
    | nil =>
      simp only [List.getLast?_singleton, Option.some.injEq] at h
      simp [h]
    | cons y t =>
      rw [List.getLast?_cons_cons] at h
      exact List.mem_cons_of_mem x (ih h)

/-- C9: `parseEnvFile` skips blank lines, lines whose trimmed text starts
with `'#'`, and lines containing no `'='`; a trimmed line of the form
`KEY=` produces the entry `(KEY, "")`; and the file
`"API_KEY=xyz\n# comment\nLOG_LEVEL=\nBAD_LINE\n"` parses to exactly the
entries `(API_KEY, "xyz")` and `(LOG_LEVEL, "")`, in that order. -/
theorem parseEnvFile_spec :
    (∀ envs line, trimSpace line = "" → envFileStep envs line = envs) ∧
    (∀ envs line, (trimSpace line).data.head? = some '#' →
      envFileStep envs line = envs) ∧
    (∀ envs (line : String), '=' ∉ line.data → envFileStep envs line = envs) ∧
    (∀ envs (key : List Char), '=' ∉ key → (∀ c ∈ key, c.isWhitespace = false) →
      key.head? ≠ some '#' →
      envFileStep envs (String.mk (key ++ ['='])) = envs ++ [⟨String.mk key, ""⟩]) ∧
    parseEnvFile "API_KEY=xyz\n# comment\nLOG_LEVEL=\nBAD_LINE\n" =
      [⟨"API_KEY", "xyz"⟩, ⟨"LOG_LEVEL", ""⟩] := by
  refine ⟨?_, ?_, ?_, ?_, by decide⟩
  · intro envs line h
    simp only [envFileStep]
    rw [h]
    simp
  · intro envs line h
    simp only [envFileStep]
    rw [if_pos (Or.inr h)]
  · intro envs line h
    have ht : '=' ∉ (trimSpace line).data :=
      fun hm => h ((trimSpace_data_sublist line).mem hm)
    simp only [envFileStep]
    by_cases hskip : (trimSpace line).data = [] ∨ (trimSpace line).data.head? = some '#'
    · rw [if_pos hskip]
    · rw [if_neg hskip, splitOnFirstEq_eq_none ht]
      have hlast : ¬ (trimSpace line).data.getLast? = some '=' :=
        fun hl => ht (getLast?_mem hl)
      rw [if_neg hlast]
  · intro envs key hkey hws hhash
    have hall : ∀ c ∈ key ++ ['='], c.isWhitespace = false := by
      intro c hc
      rcases List.mem_append.mp hc with hc | hc
      · exact hws c hc
      · rw [List.mem_singleton] at hc
        subst hc
        decide
    have htrim : trimSpace (String.mk (key ++ ['='])) = String.mk (key ++ ['=']) :=
      trimSpace_eq_self hall
    simp only [envFileStep]
    rw [htrim]
    have hne : ¬ ((key ++ ['=']).isEmpty = true ∨ (key ++ ['=']).head? = some '#') := by
      rintro (hemp | hhead)
      · simp at hemp
      · cases key with
        | nil => simp at hhead
        | cons a rest =>
          rw [List.cons_append, List.head?_cons] at hhead
          exact hhash (by simpa using hhead)
    have hne' : ¬ ((key ++ ['=']) = [] ∨ (key ++ ['=']).head? = some '#') := by
      rintro (hemp | hhead)
      · exact absurd hemp (by simp)
      · exact hne (Or.inr hhead)
    rw [if_neg hne']
    have hsplit : splitOnFirstEq (key ++ ['=']) = some (key, []) := by
      simpa using splitOnFirstEq_key hkey []
    rw [hsplit]

/-! ## The session pipeline (`rootCmd.Run`, main.go)

The cluster's and host's responses to the pipeline's calls are abstracted
into a `World`; the pipeline is embedded as the trace of lifecycle events
it emits.  Two facts of Go's documented semantics shape the embedding:
`log.Fatalf` prints and calls `os.Exit(1)`, and `os.Exit` terminates the
process immediately *without running deferred functions* — so the
`defer`red `deletePod` that `Run` registers after a successful create
executes only when `Run` returns normally. -/

/-- `strings.Contains(s, substr)` (true when `substr` occurs in `s`,
including when `substr` is empty). -/
def goContains (sub : List Char) : List Char → Bool
  | [] => sub.isEmpty
  | c :: rest => sub.isPrefixOf (c :: rest) || goContains sub rest

/-- The TUI session model's attach-error classification (parsing.go,
`Update`, case `attachMsg`): an attach error is a pipeline failure only
when `err != nil && !strings.Contains(err.Error(), "exit status")` — an
error carrying a non-zero remote exit status is treated as a normal
session outcome there. -/
def tuiAttachIsError (err : Option String) : Bool :=
  match err with
  | none => false
  | some msg => !(goContains ("exit status".data) msg.data)

/-- The responses one run of `rootCmd.Run` observes from its collaborators,
in pipeline order.  `none` is a `nil` Go error. -/
structure World where
  labelsOk : Bool
  envOk : Bool
  skipIdentification : Bool
  identOk : Bool
  connectOk : Bool
  getPodOk : Bool
  createOk : Bool
  appendLogOk : Bool
  waitErr : Option String
  attachErr : Option String
deriving DecidableEq

/-- The externally observable lifecycle events of one run. -/
inductive Ev where
  | created
  | deleteAttempted
  | fatalExit
  | normalExit
deriving DecidableEq

/-- `rootCmd.Run` (main.go) as the trace of lifecycle events it emits.
Every failure before pod creation exits via `log.Fatalf` with nothing to
clean up.  After `createPod` succeeds, `Run` appends the audit-log entry
(failure is only a warning), registers the `defer`red `deletePod`, and
proceeds to `waitForPodRunning` and `attachToPod`; an error from either
is handled with `log.Fatalf`, whose `os.Exit(1)` skips the deferred
cleanup, so only the normal return path reaches `deleteAttempted`. -/
def runPipeline (w : World) : List Ev :=
  if !w.labelsOk then [.fatalExit]
  else if !w.envOk then [.fatalExit]
  else if !w.skipIdentification && !w.identOk then [.fatalExit]
  else if !w.connectOk then [.fatalExit]
  else if !w.getPodOk then [.fatalExit]
  else if !w.createOk then [.fatalExit]
  else
    .created ::
      (match w.waitErr with
       | some _ => [.fatalExit]
       | none =>
         match w.attachErr with
         | some _ => [.fatalExit]
         | none => [.deleteAttempted, .normalExit])

/-- A run in which every stage up to and including pod creation succeeds. -/
def baseWorld : World :=
  { labelsOk := true, envOk := true, skipIdentification := false, identOk := true,
    connectOk := true, getPodOk := true, createOk := true, appendLogOk := true,
    waitErr := none, attachErr := none }

/-- C1 (code bug): after a successful create, a readiness failure
(timeout or terminal phase) or an attach failure exits through
`log.Fatalf`, whose `os.Exit(1)` skips the `defer`red `deletePod` — the
trace records the create but no delete attempt; only the fully
successful path attempts the deletion. -/
theorem runPipeline_skips_cleanup_on_fatal :
    runPipeline { baseWorld with waitErr := some ("timeout waiting for pod to be running") } =
        [.created, .fatalExit] ∧
      (runPipeline { baseWorld with
          waitErr := some ("timeout waiting for pod to be running") }).count
          .deleteAttempted = 0 ∧
      runPipeline { baseWorld with attachErr := some ("error dialing backend") } =
        [.created, .fatalExit] ∧
      (runPipeline { baseWorld with
          attachErr := some ("error dialing backend") }).count .deleteAttempted = 0 ∧
      runPipeline baseWorld = [.created, .deleteAttempted, .normalExit] := by
  decide

/-- C2 (code bug): when the remote command exits with a non-zero status,
`attachToPod` surfaces an error whose text contains "exit status";
`rootCmd.Run` (main.go) handles *any* attach error with `log.Fatalf`, so
the session ends as a fatal pipeline failure (and skips cleanup) instead
of completing normally — while the repository's own TUI pipeline
(parsing.go, `Update`, case `attachMsg`) classifies the same error as a
non-failure and only treats transport-level errors as failures. -/
theorem runPipeline_attach_exit_status_fatal :
    runPipeline { baseWorld with
        attachErr := some ("command terminated with exit status 1") } =
        [.created, .fatalExit] ∧
      (runPipeline { baseWorld with
          attachErr := some ("command terminated with exit status 1") }).count
          .normalExit = 0 ∧
      tuiAttachIsError (some ("command terminated with exit status 1")) = false ∧
      tuiAttachIsError (some ("error dialing backend")) = true := by
  decide

/-! ## Argument handling (`rootCmd`, main.go) -/

/-- The command selection in `rootCmd.Run`: `cobra.MinimumNArgs(1)`
guarantees at least one positional argument; `args[0]` is the source pod,
and the command is `args[1:]` when more arguments were given, else
`["bash"]`. -/
def commandToRun (args : List String) : List String :=
  if args.length > 1 then args.drop 1 else ["bash"]

/-- C10: with exactly one positional argument the command defaults to
`["bash"]`; with more, the command is exactly the remaining arguments in
order. -/
theorem commandToRun_spec :
    (∀ sourcePod : String, commandToRun [sourcePod] = ["bash"]) ∧
    (∀ (sourcePod : String) (rest : List String), rest ≠ [] →
      commandToRun (sourcePod :: rest) = rest) := by
  constructor
  · intro s
    rfl
  · intro s rest h
    have hlen : (s :: rest).length > 1 := by
      cases rest with
      | nil => exact absurd rfl h
      | cons a t => simp [List.length_cons]
    unfold commandToRun
    rw [if_pos hlen]
    simp

/-- Witness for `commandToRun_spec` at concrete argument lists. -/
theorem commandToRun_spec_witness :
    commandToRun [("web-7f" : String)] = ["bash"] ∧
      commandToRun [("web-7f" : String), "sh", "-c"] = ["sh", "-c"] :=
  ⟨commandToRun_spec.1 ("web-7f"),
    commandToRun_spec.2 ("web-7f") ["sh", "-c"] (by decide)⟩

/-! ## Concrete fixtures and witnesses -/

/-- A concrete source container for witness instances. -/
def sampleContainer : Container :=
  { command := ["server"], args := ["--port", "80"], tty := false, stdin := false,
    env := [⟨"PATH", "/bin"⟩] }

/-- A concrete source pod for witness instances. -/
def samplePod : Pod :=
  { metadata := { name := "web-7f", namespaceName := "prod",
                  labels := [("app", "web")], annotations := [] },
    spec := { containers := [sampleContainer], restartPolicy := "Always",
              nodeName := "node-1", serviceAccountName := "default" } }

/-- Witness for `generateNewPodName_shape` at a concrete input (the
generated name is `dbg--web-7f-al-ice-1234`). -/
theorem generateNewPodName_shape_witness :
    (generateNewPodName ("web-7f") ("dbg-") "" ("al-ice") 1234).length ≤ 63 ∧
      ('d' : Char) ≠ '-' ∧ ('4' : Char) ≠ '-' :=
  have h := generateNewPodName_shape ("web-7f") ("dbg-") "" ("al-ice") 1234
  ⟨h.1, h.2.1 'd' (by decide), h.2.2 '4' (by decide)⟩

/-- Witness for `clonePod_first_container` at a concrete pod. -/
theorem clonePod_first_container_witness :
    (clonePod samplePod ("al-ice") ["bash"] ("dbg-") "" [] [] 1234).spec.restartPolicy =
        "Never" ∧
      (clonePod samplePod ("al-ice") ["bash"] ("dbg-") "" [] [] 1234).spec.nodeName = "" ∧
      ((clonePod samplePod ("al-ice") ["bash"] ("dbg-") "" [] []
          1234).spec.containers.head?.map Container.command) = some ["bash"] :=
  have h := clonePod_first_container samplePod ("al-ice") ["bash"] ("dbg-") "" [] [] 1234
    (by decide)
  ⟨h.2.2.2.2.1, h.2.2.2.2.2.1, h.1⟩

/-- Witness for `clonePod_env` at a concrete pod: the caller-supplied
`API_KEY=xyz` is visible in the clone's first container. -/
theorem clonePod_env_witness :
    ((clonePod samplePod ("al-ice") ["bash"] ("dbg-") "" []
          [⟨"API_KEY", "xyz"⟩] 1234).spec.containers.head?.map
        (fun (e : Container) => envLookup e.env ("API_KEY"))) = some (some ("xyz")) :=
  (clonePod_env samplePod ("al-ice") ["bash"] ("dbg-") "" [] [⟨"API_KEY", "xyz"⟩] 1234
      sampleContainer [] (by decide) ("API_KEY")).trans (by decide)

/-- Witness for `parseEnvFile_spec` at concrete lines. -/
theorem parseEnvFile_spec_witness :
    envFileStep [] ("   ") = [] ∧
      envFileStep [] ("# comment") = [] ∧
      envFileStep [] ("BAD_LINE") = [] ∧
      envFileStep [] (String.mk ("LOG_LEVEL".data ++ ['='])) = [⟨"LOG_LEVEL", ""⟩] :=
  have h := parseEnvFile_spec
  ⟨h.1 [] ("   ") (by decide),
    h.2.1 [] ("# comment") (by decide),
    h.2.2.1 [] ("BAD_LINE") (by decide),
    (h.2.2.2.1 [] ("LOG_LEVEL".data) (by decide) (by decide) (by decide)).trans (by decide)⟩

end Kmime
